import Mathlib

/-!
# Snapshot ingestion and time-series normalization engine: verification

A shallow embedding of the snapshot ingestion / persistence core of the
`aas-robo-scara` repository, together with proofs about it.

The persistence core itself (`opcua_client/persist_db.py`, function
`save_all_submodels`, and the Flask query routes in
`aas_web_template/backend/data_routes.py`) is documented in the repository
(the persistence README and the Data-page README) but its Python source is
not part of the source snapshot; the ingestion, classification, flattening
and query definitions below are therefore modelled from the specification
and from the repository's own documentation (table schemas, path examples,
query-parameter documentation).  The two frontend functions `drawLine` and
`fmt` (from the dashboard script) are embedded directly from their
JavaScript source.

Modelling conventions:
* machine floats / Python-JS numbers are modelled as `ℚ`;
* ISO-8601 UTC timestamps are modelled as `Nat` (order-isomorphic);
* SQLite tables are lists of rows, `id INTEGER PRIMARY KEY AUTOINCREMENT`
  is modelled as `length + 1` on an append-only table.
-/

namespace AasScara

/-- Scalar leaf values of a submodel tree (spec §3: number, boolean,
text, null). -/
inductive Scalar
  | num (q : ℚ)
  | bool (b : Bool)
  | str (s : String)
  | null
deriving DecidableEq, Repr

/-- Modelled from the spec: `SubmodelTree` (§3, §9) — an arbitrarily
nested structure of named fields whose leaves are scalars, with ordered
sequences and mappings, reimplemented as a tagged-variant value type as
§9 instructs. -/
inductive Tree
  | leaf (v : Scalar)
  | seq (items : List Tree)
  | map (fields : List (String × Tree))

/-- One segment of a leaf path: a field name or a sequence index
(spec §4.1). -/
inductive Seg
  | key (k : String)
  | idx (i : Nat)
deriving DecidableEq, Repr

/-! ## Decimal rendering of sequence indices

Sequence indices appear inside leaf paths as their decimal numerals
(README example `OperationalData.JointPosition1.0`).  The renderer below
is fuel-based so that it is structural and kernel-reducible. -/

/-- The decimal digit character of `d % 10`-style digit values. -/
def digitChar (d : Nat) : Char :=
  match d with
  | 0 => '0' | 1 => '1' | 2 => '2' | 3 => '3' | 4 => '4'
  | 5 => '5' | 6 => '6' | 7 => '7' | 8 => '8' | _ => '9'

/-- Little-endian digit characters of `n`, with fuel. -/
def digitsAux : Nat → Nat → List Char
  | 0, _ => []
  | _ + 1, 0 => []
  | fuel + 1, n + 1 => digitChar ((n + 1) % 10) :: digitsAux fuel ((n + 1) / 10)

/-- Decimal numeral of a natural number, as characters (Python/JS
`str(n)`). -/
def decimalChars (n : Nat) : List Char :=
  if n = 0 then ['0'] else (digitsAux n n).reverse

/-- Decimal numeral of a natural number, as a string. -/
def decimalStr (n : Nat) : String := String.mk (decimalChars n)

/-- Numeric value of a digit character. -/
def charVal (c : Char) : Nat := c.toNat - 48

/-- Numeric value of a little-endian digit-character list. -/
def listVal : List Char → Nat
  | [] => 0
  | c :: cs => charVal c + 10 * listVal cs

/-! ## Path Flattener (spec §4.1)

Modelled from the spec: walks the tree, producing one `(path, rawValue)`
pair per scalar leaf; the path is the chain of field names / sequence
indices from the root.  Traversal is field order / sequence order as
given.  The persistence README's examples fix the rendering: normalized
`idshort` joins every segment with `.` (`OperationalData.JointPosition1.0`)
while the time-series `element_path` joins sequence indices with `_`
(`OperationalData.JointPosition1_0`). -/

mutual
/-- All scalar leaves of a tree, as (segment chain, scalar) pairs, in
deterministic traversal order. -/
def leaves : Tree → List (List Seg × Scalar)
  | .leaf v => [([], v)]
  | .seq items => leavesSeq 0 items
  | .map fields => leavesMap fields

/-- Leaves of the items of a sequence node, indices starting at `i`. -/
def leavesSeq : Nat → List Tree → List (List Seg × Scalar)
  | _, [] => []
  | i, t :: ts => (leaves t).map (fun p => (Seg.idx i :: p.1, p.2)) ++ leavesSeq (i + 1) ts

/-- Leaves of the fields of a mapping node. -/
def leavesMap : List (String × Tree) → List (List Seg × Scalar)
  | [] => []
  | (k, t) :: fs => (leaves t).map (fun p => (Seg.key k :: p.1, p.2)) ++ leavesMap fs
end

mutual
/-- The number of scalar leaves reachable in a tree. -/
def leafCount : Tree → Nat
  | .leaf _ => 1
  | .seq items => leafCountSeq items
  | .map fields => leafCountMap fields

/-- Leaf count of a sequence's items. -/
def leafCountSeq : List Tree → Nat
  | [] => 0
  | t :: ts => leafCount t + leafCountSeq ts

/-- Leaf count of a mapping's fields. -/
def leafCountMap : List (String × Tree) → Nat
  | [] => 0
  | (_, t) :: fs => leafCount t + leafCountMap fs
end

/-- Rendering of one path segment (field name, or decimal index). -/
def segStr : Seg → String
  | .key k => k
  | .idx i => decimalStr i

/-- Character-level view of a rendered segment. -/
def segChars (g : Seg) : List Char := (segStr g).data

/-- The `.`-joined tail of a path: every segment is preceded by a dot
(the submodel name is prepended in front, giving e.g.
`OperationalData.JointPosition1.0`). -/
def pathStr : List Seg → String
  | [] => ""
  | g :: gs => "." ++ segStr g ++ pathStr gs

/-- Normalized-row leaf path (`idshort` column): submodel name followed
by all segments joined with `.`. -/
def normPath (sm : String) (gs : List Seg) : String := sm ++ pathStr gs

/-- The time-series path tail: field names are joined with `.`, sequence
indices with `_` (README example `OperationalData.JointPosition1_0`). -/
def tsPathStr : List Seg → String
  | [] => ""
  | .key k :: gs => "." ++ k ++ tsPathStr gs
  | .idx i :: gs => "_" ++ decimalStr i ++ tsPathStr gs

/-- Time-series element path (`element_path` column). -/
def tsPath (sm : String) (gs : List Seg) : String := sm ++ tsPathStr gs

/-- The flattener as used by ingestion: leaf paths of a submodel tree,
rendered as normalized `idshort` strings, paired with the raw scalar. -/
def flatten (sm : String) (t : Tree) : List (String × Scalar) :=
  (leaves t).map (fun p => (normPath sm p.1, p.2))

/-! ## Well-formed trees

Mapping nodes of a tree coming from a parsed submodel have pairwise
distinct keys; the uniqueness of flattened paths additionally needs keys
that do not contain the path delimiter `.`. -/

mutual
/-- Every mapping node has pairwise-distinct, dot-free keys. -/
def wf : Tree → Bool
  | .leaf _ => true
  | .seq items => wfSeq items
  | .map fields =>
      decide ((fields.map Prod.fst).Nodup) &&
      fields.all (fun kv => !kv.1.data.contains '.') && wfFields fields

/-- `wf` on a sequence's items. -/
def wfSeq : List Tree → Bool
  | [] => true
  | t :: ts => wf t && wfSeq ts

/-- `wf` on a mapping's fields. -/
def wfFields : List (String × Tree) → Bool
  | [] => true
  | (_, t) :: fs => wf t && wfFields fs
end

/-! ## Injectivity of dotted joining

A dotted path is `'.' ++ chunk ++ '.' ++ chunk ++ …`; when no chunk
contains a dot, the chunk list can be recovered from the joined string. -/

/-- Character-level dotted join: each chunk is preceded by a dot. -/
def catChunks : List (List Char) → List Char
  | [] => []
  | c :: cs => '.' :: (c ++ catChunks cs)

/-- A suffix of a dotted join: empty, or starting with a dot. -/
def HeadOk (b : List Char) : Prop := b = [] ∨ ∃ r, b = '.' :: r

/-! ## Uniqueness of flattened paths -/

/-- Rendered segment chains of a leaf list (each leaf as the list of its
segments' character strings). -/
def segRender (l : List (List Seg × Scalar)) : List (List (List Char)) :=
  l.map (fun p => p.1.map segChars)

/-! ## Value Classifier (spec §4.2)

Modelled from the spec: one raw leaf value maps to exactly one of
Numeric / Boolean / Text / Skip; numeric accepts any integer or
floating-point representation (both are `ℚ` here); boolean is
exact-type match only; null maps to Skip. -/

/-- Classification outcome of one leaf value. -/
inductive ValueClass
  | numeric (q : ℚ)
  | boolean (b : Bool)
  | text (s : String)
  | skip
deriving DecidableEq, Repr

/-- Modelled from the spec: the Value Classifier (§4.2). -/
def classify : Scalar → ValueClass
  | .num q => .numeric q
  | .bool b => .boolean b
  | .str s => .text s
  | .null => .skip

/-- Whether a scalar classifies as numeric. -/
def isNum : Scalar → Bool
  | .num _ => true
  | _ => false

/-! ## Persistence Store (spec §4.3, persistence README schema) -/

/-- A row of `submodel_snapshots_json` (archival snapshot: the whole
tree, serialized, per poll). -/
structure ArchRow where
  id : Nat
  submodel_name : String
  data : String
  created_at : Nat
deriving DecidableEq, Repr

/-- A row of `submodel_snapshots` (normalized: one row per leaf path,
with exactly the `value_text` / `value_num` / `value_bool` columns of
the README schema). -/
structure NormalizedRow where
  id : Nat
  submodel_name : String
  idshort : String
  value_text : Option String
  value_num : Option ℚ
  value_bool : Option Bool
  created_at : Nat
deriving DecidableEq, Repr

/-- A row of `timeseries` (numeric leaves only; `value REAL NOT NULL`). -/
structure TimeseriesPoint where
  id : Nat
  submodel_name : String
  element_path : String
  value : ℚ
  created_at : Nat
deriving DecidableEq, Repr

/-- The three append-only tables plus an availability flag standing for
the persistence medium accepting writes (spec §7 StoreUnavailable). -/
structure Store where
  available : Bool
  snapshots_json : List ArchRow
  submodel_snapshots : List NormalizedRow
  timeseries : List TimeseriesPoint
deriving DecidableEq, Repr

/-- A fresh, available store. -/
def emptyStore : Store :=
  { available := true, snapshots_json := [], submodel_snapshots := [], timeseries := [] }

/-- Quoted rendering of a string leaf inside the archival JSON. -/
def quoteStr (s : String) : String := "\"" ++ s ++ "\""

mutual
/-- Modelled from the spec: verbatim serialization of the tree for the
archival record (§4.4 step 1).  Total and deterministic on finite trees
(cyclic references cannot occur in an inductive tree). -/
def serialize : Tree → String
  | .leaf (.num q) => toString q
  | .leaf (.bool b) => if b then "true" else "false"
  | .leaf (.str s) => quoteStr s
  | .leaf .null => "null"
  | .seq items => "[" ++ serializeSeq items ++ "]"
  | .map fields => "\x7b" ++ serializeMap fields ++ "\x7d"

/-- Serialization of the items of a sequence node. -/
def serializeSeq : List Tree → String
  | [] => ""
  | [t] => serialize t
  | t :: ts => serialize t ++ "," ++ serializeSeq ts

/-- Serialization of the fields of a mapping node. -/
def serializeMap : List (String × Tree) → String
  | [] => ""
  | [(k, t)] => quoteStr k ++ ":" ++ serialize t
  | (k, t) :: fs => quoteStr k ++ ":" ++ serialize t ++ "," ++ serializeMap fs
end

/-- The normalized row written for one leaf: exactly the slot of the
leaf's classification is populated (`Skip` leaves none). -/
def mkNormRow (sm : String) (ts id : Nat) (segs : List Seg) (v : Scalar) : NormalizedRow :=
  match classify v with
  | .numeric q => ⟨id, sm, normPath sm segs, none, some q, none, ts⟩
  | .boolean b => ⟨id, sm, normPath sm segs, none, none, some b, ts⟩
  | .text s => ⟨id, sm, normPath sm segs, some s, none, none, ts⟩
  | .skip => ⟨id, sm, normPath sm segs, none, none, none, ts⟩

/-- The batch of normalized rows for one poll, ids continuing the
table's autoincrement counter `base`. -/
def mkNormRows (sm : String) (ts : Nat) : Nat → List (List Seg × Scalar) → List NormalizedRow
  | _, [] => []
  | base, p :: ps => mkNormRow sm ts (base + 1) p.1 p.2 :: mkNormRows sm ts (base + 1) ps

/-- The batch of time-series points for one poll: numeric leaves only,
with the `_`-indexed element path. -/
def mkTsRows (sm : String) (ts : Nat) : Nat → List (List Seg × Scalar) → List TimeseriesPoint
  | _, [] => []
  | base, (segs, .num q) :: ps => ⟨base + 1, sm, tsPath sm segs, q, ts⟩ :: mkTsRows sm ts (base + 1) ps
  | base, (_, .bool _) :: ps => mkTsRows sm ts base ps
  | base, (_, .str _) :: ps => mkTsRows sm ts base ps
  | base, (_, .null) :: ps => mkTsRows sm ts base ps

/-- Ingestion failure kinds surfaced to the poll loop (spec §7). -/
inductive IngestError
  | storeUnavailable
deriving DecidableEq, Repr

/-- Modelled from the spec: the Ingestion Orchestrator
`ingest(submodelName, tree, capturedAt)` (§4.4) — serialize, flatten,
classify, and commit all three write sets in one transaction; on
failure (store unavailable) the cycle is abandoned with no partial
persistence and the store is returned unchanged. -/
def ingest (s : Store) (sm : String) (t : Tree) (ts : Nat) :
    Except IngestError Unit × Store :=
  if s.available then
    (Except.ok (),
      { s with
        snapshots_json :=
          s.snapshots_json ++ [⟨s.snapshots_json.length + 1, sm, serialize t, ts⟩],
        submodel_snapshots :=
          s.submodel_snapshots ++ mkNormRows sm ts s.submodel_snapshots.length (leaves t),
        timeseries :=
          s.timeseries ++ mkTsRows sm ts s.timeseries.length (leaves t) })
  else (Except.error IngestError.storeUnavailable, s)

/-! ## Query Surface: time-range scan (spec §4.5, §7; Data README:
`GET /api/data/timeseries`, `limit` default 200, max 2000) -/

/-- Query failure kind (spec §7 QueryOutOfRange). -/
inductive QueryError
  | queryOutOfRange
deriving DecidableEq, Repr

/-- A time-range query over the `timeseries` table. -/
structure RangeQuery where
  submodel : String
  path : String
  startAt : Option Nat
  endAt : Option Nat
  limit : Option Int
deriving Repr

/-- Default result cap when the caller sends no `limit` (Data README:
`padrão: 200`). -/
def DEFAULT_LIMIT : Int := 200

/-- Hard maximum result cap (Data README: `máx: 2000`). -/
def HARD_MAX_LIMIT : Int := 2000

/-- The effective limit of a query: explicit, or the default. -/
def effLimit (q : RangeQuery) : Int := q.limit.getD DEFAULT_LIMIT

/-- End-before-start check on the optional bounds. -/
def boundsInvalid (q : RangeQuery) : Bool :=
  match q.startAt, q.endAt with
  | some a, some b => b < a
  | _, _ => false

/-- A query is invalid when its limit is non-positive, exceeds the hard
maximum, or its end bound precedes its start bound (spec §7). -/
def queryInvalid (q : RangeQuery) : Bool :=
  effLimit q ≤ 0 || HARD_MAX_LIMIT < effLimit q || boundsInvalid q

/-- Whether a capture timestamp falls within the optional bounds. -/
def inBounds (q : RangeQuery) (ts : Nat) : Bool :=
  (match q.startAt with | some a => decide (a ≤ ts) | none => true) &&
  (match q.endAt with | some b => decide (ts ≤ b) | none => true)

/-- Capture-timestamp order on time-series rows (`ORDER BY created_at
ASC`). -/
def tsLe (r₁ r₂ : TimeseriesPoint) : Prop := r₁.created_at ≤ r₂.created_at

instance : DecidableRel tsLe := fun _ _ => Nat.decLe _ _

instance : IsTotal TimeseriesPoint tsLe := ⟨fun a b => Nat.le_total a.created_at b.created_at⟩

instance : IsTrans TimeseriesPoint tsLe := ⟨fun _ _ _ => Nat.le_trans⟩

/-- Modelled from the spec: the time-range scan (§4.5) — validate the
bounds and limit before touching the store; then filter the
`timeseries` table by submodel, element path and bounds, order by
capture timestamp ascending, and cap the result. -/
def queryTimeseries (s : Store) (q : RangeQuery) :
    Except QueryError (List TimeseriesPoint) :=
  if queryInvalid q then Except.error QueryError.queryOutOfRange
  else
    Except.ok
      (((s.timeseries.filter (fun r =>
            r.submodel_name == q.submodel && r.element_path == q.path &&
            inBounds q r.created_at)).insertionSort tsLe).take (effLimit q).toNat)

/-! ## Frontend chart and formatting helpers

These two functions are embedded from the dashboard script
(`drawLine` and `fmt`); JS numbers are modelled as `ℚ`, the chart rows
as their numeric `v` values in order. -/

/-- JS `x || 1` for a number `x`: `1` when `x` is falsy (`0`), else
`x`. -/
def jsOr1 (x : ℚ) : ℚ := if x = 0 then 1 else x

/-- The outcome of `drawLine`: either the `Sem dados` placeholder text,
or the polyline's `(x, y)` coordinates. -/
inductive RenderResult
  | placeholder (text : String)
  | line (points : List (ℚ × ℚ))
deriving DecidableEq, Repr

/-- Minimum of the chart values (`Math.min(...values)`). -/
def rowsMin (v : ℚ) (vs : List ℚ) : ℚ := vs.foldl min v

/-- Maximum of the chart values (`Math.max(...values)`). -/
def rowsMax (v : ℚ) (vs : List ℚ) : ℚ := vs.foldl max v

/-- `drawLine(canvas, rows)` from the dashboard script: with no rows it
draws only the placeholder; otherwise it plots, for row `i` of `n`,
`x = pad + (W-2*pad) * (i/(n-1||1))` and
`y = pad + (H-2*pad) * (1 - (v-min)/((max-min)||1))`, `pad = 8`. -/
def drawLine (W H : ℚ) (rows : List ℚ) : RenderResult :=
  match rows with
  | [] => RenderResult.placeholder "Sem dados"
  | v :: vs =>
      let mn := rowsMin v vs
      let mx := rowsMax v vs
      let pad : ℚ := 8
      let n : ℚ := (v :: vs).length
      RenderResult.line <|
        (v :: vs).enum.map fun pr =>
          (pad + (W - 2 * pad) * ((pr.1 : ℚ) / jsOr1 (n - 1)),
           pad + (H - 2 * pad) * (1 - (pr.2 - mn) / jsOr1 (mx - mn)))

/-- A JavaScript value as seen by `fmt`: the dashboard feeds it numbers,
strings, booleans, `null` and `undefined`. -/
inductive JSVal
  | null
  | undefined
  | num (q : ℚ)
  | str (s : String)
  | boolean (b : Bool)
deriving DecidableEq, Repr

/-- JS `toString` of an integer-valued number. -/
def intChars (i : ℤ) : List Char :=
  if i < 0 then '-' :: decimalChars i.natAbs else decimalChars i.natAbs

/-- JS `v.toFixed(2)`: the value rounded to two decimals and rendered
with exactly two fraction digits (the binary-double rounding of the JS
engine is abstracted to exact rational rounding). -/
def toFixed2 (q : ℚ) : String :=
  String.mk
    ((if q < 0 then ['-'] else []) ++
      decimalChars ((round (|q| * 100)).toNat / 100) ++
      '.' :: [digitChar ((round (|q| * 100)).toNat % 100 / 10),
              digitChar ((round (|q| * 100)).toNat % 10)])

/-- `fmt(v)` from the dashboard script:
`if(v==null) return '--'; if(typeof v === 'number') return
Number.isInteger(v)? v.toString() : v.toFixed(2); return String(v);`
(`v == null` is loose equality, true for both `null` and `undefined`;
`String(v)` on a string is the string itself, on a boolean its
`true`/`false` spelling). -/
def fmt : JSVal → String
  | .null => "--"
  | .undefined => "--"
  | .num q => if q.den = 1 then String.mk (intChars q.num) else toFixed2 q
  | .str s => s
  | .boolean b => if b then "true" else "false"

/-! ## Helper lemmas about one poll's row batches -/

/-- The number of numeric leaves of a tree. -/
def numLeafCount (t : Tree) : Nat := ((leaves t).filter (fun p => isNum p.2)).length

/-- How many of the three value slots of a normalized row are
populated. -/
def popCount (r : NormalizedRow) : Nat :=
  r.value_text.isSome.toNat + r.value_num.isSome.toNat + r.value_bool.isSome.toNat

/-- Whether a classification outcome is Numeric. -/
def isNumericC : ValueClass → Bool
  | .numeric _ => true
  | _ => false

/-- Whether a classification outcome is Boolean. -/
def isBooleanC : ValueClass → Bool
  | .boolean _ => true
  | _ => false

/-- Whether a classification outcome is Text. -/
def isTextC : ValueClass → Bool
  | .text _ => true
  | _ => false

/-- Whether a classification outcome is Skip. -/
def isSkipC : ValueClass → Bool
  | .skip => true
  | _ => false

/-- The spec §8 example poll:
`\x7b"Op": \x7b"Joint1": 12.5, "Status": "running", "Alarm": false\x7d\x7d`. -/
def exampleTree : Tree :=
  Tree.map [("Op", Tree.map [("Joint1", Tree.leaf (Scalar.num (25 / 2))),
    ("Status", Tree.leaf (Scalar.str "running")),
    ("Alarm", Tree.leaf (Scalar.bool false))])]


/-! ## Theorems -/

theorem charVal_digitChar : ∀ d < 10, charVal (digitChar d) = d := by decide

theorem digitChar_ne_dot (d : Nat) : digitChar d ≠ '.' := by
  unfold digitChar; split <;> decide

theorem digitsAux_val : ∀ fuel n, n ≤ fuel → listVal (digitsAux fuel n) = n := by
  intro fuel
  induction fuel with
  | zero => intro n hn; interval_cases n; simp [digitsAux, listVal]
  | succ fuel ih =>
      intro n hn
      match n with
      | 0 => simp [digitsAux, listVal]
      | n + 1 =>
          have hdiv : (n + 1) / 10 ≤ fuel := by
            have h1 : (n + 1) / 10 < n + 1 := Nat.div_lt_self (Nat.succ_pos n) (by omega)
            omega
          have hmod : (n + 1) % 10 < 10 := Nat.mod_lt _ (by omega)
          simp only [digitsAux, listVal, ih _ hdiv, charVal_digitChar _ hmod]
          exact Nat.mod_add_div (n + 1) 10

theorem digitsAux_ne_dot : ∀ fuel n, '.' ∉ digitsAux fuel n := by
  intro fuel
  induction fuel with
  | zero => intro n; simp [digitsAux]
  | succ fuel ih =>
      intro n
      match n with
      | 0 => simp [digitsAux]
      | n + 1 =>
          simp only [digitsAux, List.mem_cons, not_or]
          exact ⟨fun h => digitChar_ne_dot _ h.symm, ih _⟩

theorem decimalChars_ne_dot (n : Nat) : '.' ∉ decimalChars n := by
  unfold decimalChars
  split
  · decide
  · simpa using fun h => digitsAux_ne_dot n n h

theorem decimalChars_injective : Function.Injective decimalChars := by
  intro m n h
  unfold decimalChars at h
  by_cases hm : m = 0 <;> by_cases hn : n = 0 <;> simp [hm, hn] at h ⊢
  · -- m = 0, n ≠ 0 : ['0'] = (digitsAux n n).reverse
    have h2 : digitsAux n n = ['0'] := by
      have := congrArg List.reverse h
      simpa using this.symm
    have := digitsAux_val n n le_rfl
    rw [h2] at this
    simp [listVal, charVal] at this
    omega
  · -- m ≠ 0, n = 0
    have h2 : digitsAux m m = ['0'] := by
      have := congrArg List.reverse h
      simpa using this
    have := digitsAux_val m m le_rfl
    rw [h2] at this
    simp [listVal, charVal] at this
    omega
  · have h2 : digitsAux m m = digitsAux n n := by
      have := congrArg List.reverse h
      simpa using this
    have hm' := digitsAux_val m m le_rfl
    have hn' := digitsAux_val n n le_rfl
    rw [h2] at hm'
    omega

theorem headOk_catChunks : ∀ cs, HeadOk (catChunks cs)
  | [] => Or.inl rfl
  | _ :: _ => Or.inr ⟨_, rfl⟩

theorem chunk_cancel : ∀ (a₁ : List Char) {a₂ b₁ b₂ : List Char},
    '.' ∉ a₁ → '.' ∉ a₂ → HeadOk b₁ → HeadOk b₂ →
    a₁ ++ b₁ = a₂ ++ b₂ → a₁ = a₂ ∧ b₁ = b₂ := by
  intro a₁
  induction a₁ with
  | nil =>
      intro a₂ b₁ b₂ _ h₂ hb₁ _ heq
      cases a₂ with
      | nil => exact ⟨rfl, by simpa using heq⟩
      | cons c a₂' =>
          rcases hb₁ with rfl | ⟨r, rfl⟩
          · simpa using congrArg List.length heq
          · simp only [List.nil_append, List.cons_append, List.cons.injEq] at heq
            exact absurd (heq.1 ▸ List.mem_cons_self c a₂') h₂
  | cons c a₁' ih =>
      intro a₂ b₁ b₂ h₁ h₂ hb₁ hb₂ heq
      cases a₂ with
      | nil =>
          rcases hb₂ with rfl | ⟨r, rfl⟩
          · simpa using congrArg List.length heq
          · simp only [List.nil_append, List.cons_append, List.cons.injEq] at heq
            exact absurd (heq.1 ▸ List.mem_cons_self c a₁') h₁
      | cons d a₂' =>
          simp only [List.cons_append, List.cons.injEq] at heq
          obtain ⟨rfl, heq'⟩ := heq
          have h₁' : '.' ∉ a₁' := fun hx => h₁ (List.mem_cons_of_mem _ hx)
          have h₂' : '.' ∉ a₂' := fun hx => h₂ (List.mem_cons_of_mem _ hx)
          obtain ⟨he, hb⟩ := ih h₁' h₂' hb₁ hb₂ heq'
          exact ⟨by rw [he], hb⟩

theorem catChunks_inj : ∀ cs₁ cs₂ : List (List Char),
    (∀ c ∈ cs₁, '.' ∉ c) → (∀ c ∈ cs₂, '.' ∉ c) →
    catChunks cs₁ = catChunks cs₂ → cs₁ = cs₂ := by
  intro cs₁
  induction cs₁ with
  | nil =>
      intro cs₂ _ _ h
      cases cs₂ with
      | nil => rfl
      | cons c cs => simpa [catChunks] using congrArg List.length h
  | cons c cs ih =>
      intro cs₂ h₁ h₂ heq
      cases cs₂ with
      | nil => simpa [catChunks] using congrArg List.length heq
      | cons d ds =>
          simp only [catChunks, List.cons.injEq, true_and] at heq
          obtain ⟨hcd, hrest⟩ :=
            chunk_cancel c (h₁ c (List.mem_cons_self c cs)) (h₂ d (List.mem_cons_self d ds))
              (headOk_catChunks cs) (headOk_catChunks ds) heq
          rw [hcd, ih ds (fun x hx => h₁ x (List.mem_cons_of_mem _ hx))
            (fun x hx => h₂ x (List.mem_cons_of_mem _ hx)) hrest]

theorem pathStr_data : ∀ gs, (pathStr gs).data = catChunks (gs.map segChars)
  | [] => rfl
  | g :: gs => by
      rw [pathStr, String.data_append, String.data_append, pathStr_data gs]
      rfl

theorem segRender_append (l₁ l₂ : List (List Seg × Scalar)) :
    segRender (l₁ ++ l₂) = segRender l₁ ++ segRender l₂ :=
  List.map_append _ _ _

theorem segRender_shift (g : Seg) (l : List (List Seg × Scalar)) :
    segRender (l.map (fun p => (g :: p.1, p.2))) =
      (segRender l).map (fun cl => segChars g :: cl) := by
  unfold segRender
  rw [List.map_map, List.map_map]
  rfl

mutual
theorem segRender_nodup : ∀ t : Tree, wf t = true → (segRender (leaves t)).Nodup
  | .leaf v, _ => by simp [leaves, segRender]
  | .seq items, h =>
      (segRenderSeq_spec 0 items (by simpa [wf] using h)).1
  | .map fields, h => by
      have h' : ((fields.map Prod.fst).Nodup) ∧
          (fields.all fun kv => !kv.1.data.contains '.') = true ∧
          wfFields fields = true := by
        simpa [wf, Bool.and_eq_true, decide_eq_true_eq, and_assoc] using h
      exact (segRenderMap_spec fields h'.2.2 h'.1).1

theorem segRenderSeq_spec : ∀ (i : Nat) (items : List Tree), wfSeq items = true →
    (segRender (leavesSeq i items)).Nodup ∧
      ∀ l ∈ segRender (leavesSeq i items), ∃ j rest, i ≤ j ∧ l = decimalChars j :: rest
  | _, [], _ => by simp [leavesSeq, segRender]
  | i, t :: ts, h => by
      have hw : wf t = true ∧ wfSeq ts = true := by
        simpa [wfSeq, Bool.and_eq_true] using h
      have ht := segRender_nodup t hw.1
      have hts := segRenderSeq_spec (i + 1) ts hw.2
      rw [leavesSeq, segRender_append, segRender_shift]
      constructor
      · apply List.Nodup.append
        · exact List.Nodup.map (fun a b hab => by simpa using hab) ht
        · exact hts.1
        · intro l hl hl'
          obtain ⟨cl, _, rfl⟩ := List.mem_map.mp hl
          obtain ⟨j, rest, hj, heq⟩ := hts.2 _ hl'
          simp only [List.cons.injEq] at heq
          have : i = j := decimalChars_injective heq.1
          omega
      · intro l hl
        rcases List.mem_append.mp hl with hl | hl
        · obtain ⟨cl, _, rfl⟩ := List.mem_map.mp hl
          exact ⟨i, cl, le_rfl, rfl⟩
        · obtain ⟨j, rest, hj, heq⟩ := hts.2 _ hl
          exact ⟨j, rest, by omega, heq⟩

theorem segRenderMap_spec : ∀ fields : List (String × Tree), wfFields fields = true →
    (fields.map Prod.fst).Nodup →
    (segRender (leavesMap fields)).Nodup ∧
      ∀ l ∈ segRender (leavesMap fields), ∃ k rest,
        k ∈ fields.map Prod.fst ∧ l = String.data k :: rest
  | [], _, _ => by simp [leavesMap, segRender]
  | (k, t) :: fs, h, hnd => by
      have hw : wf t = true ∧ wfFields fs = true := by
        simpa [wfFields, Bool.and_eq_true] using h
      have hk : k ∉ fs.map Prod.fst ∧ (fs.map Prod.fst).Nodup := by
        simpa using hnd
      have ht := segRender_nodup t hw.1
      have hfs := segRenderMap_spec fs hw.2 hk.2
      rw [leavesMap, segRender_append, segRender_shift]
      constructor
      · apply List.Nodup.append
        · exact List.Nodup.map (fun a b hab => by simpa using hab) ht
        · exact hfs.1
        · intro l hl hl'
          obtain ⟨cl, _, rfl⟩ := List.mem_map.mp hl
          obtain ⟨k', rest, hk', heq⟩ := hfs.2 _ hl'
          simp only [List.cons.injEq] at heq
          have : k = k' := String.ext heq.1
          exact hk.1 (this ▸ hk')
      · intro l hl
        rcases List.mem_append.mp hl with hl | hl
        · obtain ⟨cl, _, rfl⟩ := List.mem_map.mp hl
          exact ⟨k, cl, by simp, rfl⟩
        · obtain ⟨k', rest, hk', heq⟩ := hfs.2 _ hl
          exact ⟨k', rest, by simp [hk'], heq⟩
end

mutual
theorem leaves_dotfree : ∀ t : Tree, wf t = true →
    ∀ p ∈ leaves t, ∀ g ∈ p.1, '.' ∉ segChars g
  | .leaf _, _ => by simp [leaves]
  | .seq items, h => leavesSeq_dotfree 0 items (by simpa [wf] using h)
  | .map fields, h => by
      have h' : ((fields.map Prod.fst).Nodup) ∧
          (fields.all fun kv => !kv.1.data.contains '.') = true ∧
          wfFields fields = true := by
        simpa [wf, Bool.and_eq_true, decide_eq_true_eq, and_assoc] using h
      exact leavesMap_dotfree fields h'.2.2 h'.2.1

theorem leavesSeq_dotfree : ∀ (i : Nat) (items : List Tree), wfSeq items = true →
    ∀ p ∈ leavesSeq i items, ∀ g ∈ p.1, '.' ∉ segChars g
  | _, [], _ => by simp [leavesSeq]
  | i, t :: ts, h => by
      have hw : wf t = true ∧ wfSeq ts = true := by
        simpa [wfSeq, Bool.and_eq_true] using h
      intro p hp g hg
      rw [leavesSeq] at hp
      rcases List.mem_append.mp hp with hp | hp
      · obtain ⟨q, hq, rfl⟩ := List.mem_map.mp hp
        rcases List.mem_cons.mp hg with rfl | hg
        · exact decimalChars_ne_dot i
        · exact leaves_dotfree t hw.1 q hq g hg
      · exact leavesSeq_dotfree (i + 1) ts hw.2 p hp g hg

theorem leavesMap_dotfree : ∀ fields : List (String × Tree), wfFields fields = true →
    (fields.all fun kv => !kv.1.data.contains '.') = true →
    ∀ p ∈ leavesMap fields, ∀ g ∈ p.1, '.' ∉ segChars g
  | [], _, _ => by simp [leavesMap]
  | (k, t) :: fs, h, hall => by
      have hw : wf t = true ∧ wfFields fs = true := by
        simpa [wfFields, Bool.and_eq_true] using h
      have hall' : '.' ∉ k.data ∧ (fs.all fun kv => !kv.1.data.contains '.') = true := by
        simpa [List.all_cons, Bool.and_eq_true, List.contains, List.elem_eq_mem] using hall
      intro p hp g hg
      rw [leavesMap] at hp
      rcases List.mem_append.mp hp with hp | hp
      · obtain ⟨q, hq, rfl⟩ := List.mem_map.mp hp
        rcases List.mem_cons.mp hg with rfl | hg
        · exact hall'.1
        · exact leaves_dotfree t hw.1 q hq g hg
      · exact leavesMap_dotfree fs hw.2 hall'.2 p hp g hg
end

theorem segRender_dotfree (t : Tree) (h : wf t = true) :
    ∀ cl ∈ segRender (leaves t), ∀ c ∈ cl, '.' ∉ c := by
  intro cl hcl c hc
  obtain ⟨p, hp, rfl⟩ := List.mem_map.mp hcl
  obtain ⟨g, hg, rfl⟩ := List.mem_map.mp hc
  exact leaves_dotfree t h p hp g hg

/-- For a well-formed tree, the flattened leaf paths are pairwise
distinct. -/
theorem flatten_paths_nodup (sm : String) (t : Tree) (h : wf t = true) :
    ((flatten sm t).map Prod.fst).Nodup := by
  have key : ((flatten sm t).map Prod.fst).map String.data =
      (segRender (leaves t)).map (fun cl => sm.data ++ catChunks cl) := by
    unfold flatten segRender
    rw [List.map_map, List.map_map, List.map_map]
    apply List.map_congr_left
    intro p _
    show (normPath sm p.1).data = sm.data ++ catChunks (p.1.map segChars)
    rw [normPath, String.data_append, pathStr_data]
  have hnd : (((flatten sm t).map Prod.fst).map String.data).Nodup := by
    rw [key]
    apply List.Nodup.map_on
    · intro x hx y hy hxy
      exact catChunks_inj x y (segRender_dotfree t h x hx) (segRender_dotfree t h y hy)
        (List.append_cancel_left hxy)
    · exact segRender_nodup t h
  exact hnd.of_map String.data

mutual
theorem leaves_length : ∀ t : Tree, (leaves t).length = leafCount t
  | .leaf _ => rfl
  | .seq items => by simp [leaves, leafCount, leavesSeq_length 0 items]
  | .map fields => by simp [leaves, leafCount, leavesMap_length fields]

theorem leavesSeq_length : ∀ (i : Nat) (items : List Tree),
    (leavesSeq i items).length = leafCountSeq items
  | _, [] => rfl
  | i, t :: ts => by
      simp [leavesSeq, leafCountSeq, leaves_length t, leavesSeq_length (i + 1) ts]

theorem leavesMap_length : ∀ fields : List (String × Tree),
    (leavesMap fields).length = leafCountMap fields
  | [] => rfl
  | (k, t) :: fs => by
      simp [leavesMap, leafCountMap, leaves_length t, leavesMap_length fs]
end

theorem mkNormRows_length (sm : String) (ts : Nat) :
    ∀ (base : Nat) (ps : List (List Seg × Scalar)),
      (mkNormRows sm ts base ps).length = ps.length
  | _, [] => rfl
  | base, p :: ps => by simp [mkNormRows, mkNormRows_length sm ts (base + 1) ps]

theorem mkTsRows_length (sm : String) (ts : Nat) :
    ∀ (base : Nat) (ps : List (List Seg × Scalar)),
      (mkTsRows sm ts base ps).length = (ps.filter (fun p => isNum p.2)).length
  | _, [] => rfl
  | base, (segs, .num q) :: ps => by
      simp [mkTsRows, List.filter_cons, isNum, mkTsRows_length sm ts (base + 1) ps]
  | base, (segs, .bool b) :: ps => by
      simp [mkTsRows, List.filter_cons, isNum, mkTsRows_length sm ts base ps]
  | base, (segs, .str v) :: ps => by
      simp [mkTsRows, List.filter_cons, isNum, mkTsRows_length sm ts base ps]
  | base, (segs, .null) :: ps => by
      simp [mkTsRows, List.filter_cons, isNum, mkTsRows_length sm ts base ps]

theorem mkNormRows_created (sm : String) (ts : Nat) :
    ∀ (base : Nat) (ps : List (List Seg × Scalar)),
      ∀ r ∈ mkNormRows sm ts base ps, r.created_at = ts
  | base, [] => by simp [mkNormRows]
  | base, p :: ps => by
      intro r hr
      rcases List.mem_cons.mp hr with rfl | hr
      · cases hv : p.2 <;> simp [mkNormRow, classify, hv]
      · exact mkNormRows_created sm ts (base + 1) ps r hr

theorem mkTsRows_created (sm : String) (ts : Nat) :
    ∀ (base : Nat) (ps : List (List Seg × Scalar)),
      ∀ r ∈ mkTsRows sm ts base ps, r.created_at = ts
  | base, [] => by simp [mkTsRows]
  | base, (segs, .num q) :: ps => by
      intro r hr
      rcases List.mem_cons.mp hr with rfl | hr
      · rfl
      · exact mkTsRows_created sm ts (base + 1) ps r hr
  | base, (segs, .bool b) :: ps => fun r hr => mkTsRows_created sm ts base ps r hr
  | base, (segs, .str v) :: ps => fun r hr => mkTsRows_created sm ts base ps r hr
  | base, (segs, .null) :: ps => fun r hr => mkTsRows_created sm ts base ps r hr

/-- Claim C1: one ingestion cycle is all-or-nothing: on success every
destination table receives exactly its batch for the poll (one archival
row, one normalized row per leaf, one time-series point per numeric
leaf); otherwise the call errors and the store is unchanged, so each of
the three tables keeps exactly its previous row count. -/
theorem ingest_atomic (s : Store) (sm : String) (t : Tree) (ts : Nat) :
    (ingest s sm t ts).2.snapshots_json.length
        = s.snapshots_json.length + (if s.available then 1 else 0)
    ∧ (ingest s sm t ts).2.submodel_snapshots.length
        = s.submodel_snapshots.length + (if s.available then leafCount t else 0)
    ∧ (ingest s sm t ts).2.timeseries.length
        = s.timeseries.length + (if s.available then numLeafCount t else 0)
    ∧ ((ingest s sm t ts).1 = Except.ok () ∨ (ingest s sm t ts).2 = s)
    ∧ ((ingest s sm t ts).1 = Except.error IngestError.storeUnavailable
        ↔ s.available = false) := by
  by_cases h : s.available = true
  · simp [ingest, h, mkNormRows_length, mkTsRows_length, leaves_length, numLeafCount]
  · rw [Bool.not_eq_true] at h
    simp [ingest, h]

/-- Claim C2, counterexample: a null leaf is classified `Skip` and its
normalized row has all three value slots empty, so not every normalized
row has exactly one populated slot. -/
theorem skip_row_not_single_slot :
    ¬ (∀ r ∈ (ingest emptyStore "S" (Tree.map [("a", Tree.leaf Scalar.null)]) 5).2.submodel_snapshots,
        popCount r = 1) := by decide

/-- Claim C2, amended: every normalized row written by ingestion has at
most one of the three value slots populated — exactly one for leaves
that are not null, and zero (all three empty) for null/absent leaves,
which classify as `Skip` and still produce a row. -/
theorem normalized_value_slots (s : Store) (sm : String) (t : Tree) (ts : Nat)
    (h : s.available = true) :
    List.Forall₂
      (fun (p : List Seg × Scalar) r =>
        popCount r = if p.2 = Scalar.null then 0 else 1)
      (leaves t)
      ((ingest s sm t ts).2.submodel_snapshots.drop s.submodel_snapshots.length) := by
  have key : ∀ (base : Nat) (ps : List (List Seg × Scalar)),
      List.Forall₂
        (fun (p : List Seg × Scalar) r =>
          popCount r = if p.2 = Scalar.null then 0 else 1)
        ps (mkNormRows sm ts base ps) := by
    intro base ps
    induction ps generalizing base with
    | nil => exact List.Forall₂.nil
    | cons p ps ih =>
        refine List.Forall₂.cons ?_ (ih _)
        cases hv : p.2 <;> simp [mkNormRow, classify, hv, popCount]
  simp only [ingest, h, if_true]
  rw [List.drop_left]
  exact key _ _

/-- Witness for `normalized_value_slots` at the spec §8 example tree
extended with a null leaf. -/
theorem normalized_value_slots_witness :
    List.Forall₂
      (fun (p : List Seg × Scalar) r =>
        popCount r = if p.2 = Scalar.null then 0 else 1)
      (leaves (Tree.map [("Joint1", Tree.leaf (Scalar.num (25 / 2))),
        ("Status", Tree.leaf (Scalar.str "running")),
        ("Alarm", Tree.leaf (Scalar.bool false)),
        ("Spare", Tree.leaf Scalar.null)]))
      ((ingest emptyStore "OperationalData"
          (Tree.map [("Joint1", Tree.leaf (Scalar.num (25 / 2))),
            ("Status", Tree.leaf (Scalar.str "running")),
            ("Alarm", Tree.leaf (Scalar.bool false)),
            ("Spare", Tree.leaf Scalar.null)]) 7).2.submodel_snapshots.drop
        emptyStore.submodel_snapshots.length) :=
  normalized_value_slots emptyStore "OperationalData" _ 7 rfl

/-- Claim C3, counterexample: for a numeric leaf inside a sequence the
normalized `idshort` joins the index with `.` (`S.J.0`) but the
time-series `element_path` joins it with `_` (`S.J_0`), so the
time-series point's (submodel, path, timestamp) triple matches no
normalized row at the same triple. -/
theorem timeseries_path_scheme_differs :
    ¬ (∀ p ∈ (ingest emptyStore "S"
          (Tree.map [("J", Tree.seq [Tree.leaf (Scalar.num 1)])]) 5).2.timeseries,
        ∃ r ∈ (ingest emptyStore "S"
            (Tree.map [("J", Tree.seq [Tree.leaf (Scalar.num 1)])]) 5).2.submodel_snapshots,
          r.submodel_name = p.submodel_name ∧ r.created_at = p.created_at ∧
          r.idshort = p.element_path ∧ r.value_num = some p.value) := by decide

/-- Claim C3, amended: the time-series points of one committed poll are
exactly the numeric subset of that poll's normalized rows — pairwise
equal submodel, timestamp and numeric value — but the element path is
built from the same segment chain as the leaf path with sequence
indices joined by `_` instead of `.` (for paths without sequence
indices the two renderings coincide). -/
theorem timeseries_numeric_subset (s : Store) (sm : String) (t : Tree) (ts : Nat)
    (h : s.available = true) :
    List.Forall₂
      (fun (tp : TimeseriesPoint) (nr : NormalizedRow) =>
        tp.submodel_name = nr.submodel_name ∧ tp.created_at = nr.created_at ∧
        nr.value_num = some tp.value ∧
        ∃ segs, nr.idshort = normPath sm segs ∧ tp.element_path = tsPath sm segs)
      ((ingest s sm t ts).2.timeseries.drop s.timeseries.length)
      (((ingest s sm t ts).2.submodel_snapshots.drop s.submodel_snapshots.length).filter
        (fun r => r.value_num.isSome)) := by
  have key : ∀ (ps : List (List Seg × Scalar)) (nbase tbase : Nat),
      List.Forall₂
        (fun (tp : TimeseriesPoint) (nr : NormalizedRow) =>
          tp.submodel_name = nr.submodel_name ∧ tp.created_at = nr.created_at ∧
          nr.value_num = some tp.value ∧
          ∃ segs, nr.idshort = normPath sm segs ∧ tp.element_path = tsPath sm segs)
        (mkTsRows sm ts tbase ps)
        ((mkNormRows sm ts nbase ps).filter (fun r => r.value_num.isSome)) := by
    intro ps
    induction ps with
    | nil => intro nbase tbase; exact List.Forall₂.nil
    | cons p ps ih =>
        intro nbase tbase
        obtain ⟨segs, v⟩ := p
        cases v with
        | num q =>
            simp only [mkTsRows, mkNormRows, mkNormRow, classify, List.filter_cons,
              Option.isSome_some, if_true]
            exact List.Forall₂.cons ⟨rfl, rfl, rfl, segs, rfl, rfl⟩ (ih _ _)
        | bool b =>
            simp only [mkTsRows, mkNormRows, mkNormRow, classify, List.filter_cons,
              Option.isSome_none, if_false]
            exact ih _ _
        | str v =>
            simp only [mkTsRows, mkNormRows, mkNormRow, classify, List.filter_cons,
              Option.isSome_none, if_false]
            exact ih _ _
        | null =>
            simp only [mkTsRows, mkNormRows, mkNormRow, classify, List.filter_cons,
              Option.isSome_none, if_false]
            exact ih _ _
  simp only [ingest, h, if_true]
  rw [List.drop_left, List.drop_left]
  exact key _ _ _

/-- Witness for `timeseries_numeric_subset` on a poll mixing a numeric
sequence leaf, a text leaf and a boolean leaf. -/
theorem timeseries_numeric_subset_witness :
    List.Forall₂
      (fun (tp : TimeseriesPoint) (nr : NormalizedRow) =>
        tp.submodel_name = nr.submodel_name ∧ tp.created_at = nr.created_at ∧
        nr.value_num = some tp.value ∧
        ∃ segs, nr.idshort = normPath "OperationalData" segs ∧
          tp.element_path = tsPath "OperationalData" segs)
      ((ingest emptyStore "OperationalData"
          (Tree.map [("JointPosition1", Tree.seq [Tree.leaf (Scalar.num 12)]),
            ("Status", Tree.leaf (Scalar.str "running")),
            ("Alarm", Tree.leaf (Scalar.bool false))]) 7).2.timeseries.drop
        emptyStore.timeseries.length)
      (((ingest emptyStore "OperationalData"
          (Tree.map [("JointPosition1", Tree.seq [Tree.leaf (Scalar.num 12)]),
            ("Status", Tree.leaf (Scalar.str "running")),
            ("Alarm", Tree.leaf (Scalar.bool false))]) 7).2.submodel_snapshots.drop
        emptyStore.submodel_snapshots.length).filter
        (fun r => r.value_num.isSome)) :=
  timeseries_numeric_subset emptyStore "OperationalData" _ 7 rfl

/-- Claim C4: `classify` is a pure total function mapping every raw
leaf value to exactly one of Numeric / Boolean / Text / Skip; every
numeric representation (any `ℚ`, covering integers and floats)
classifies as Numeric; a string — in particular `"true"` or `"false"`
— is always Text, never Boolean. -/
theorem classify_total_exclusive :
    (∀ v : Scalar,
      (isNumericC (classify v)).toNat + (isBooleanC (classify v)).toNat +
        (isTextC (classify v)).toNat + (isSkipC (classify v)).toNat = 1)
    ∧ (∀ q : ℚ, classify (Scalar.num q) = ValueClass.numeric q)
    ∧ (∀ (s : String) (b : Bool), classify (Scalar.str s) ≠ ValueClass.boolean b)
    ∧ classify (Scalar.str "true") = ValueClass.text "true"
    ∧ classify (Scalar.str "false") = ValueClass.text "false"
    ∧ classify Scalar.null = ValueClass.skip := by
  refine ⟨fun v => ?_, fun q => rfl, fun s b => ?_, rfl, rfl, rfl⟩
  · cases v <;> rfl
  · simp [classify]

/-- Claim C5, counterexample: with the fixed delimiter `.`, a field
name that itself contains a dot collides with a nested field chain:
flattening `\x7b"a": \x7b"b": 1\x7d, "a.b": 2\x7d` emits the path
`S.a.b` twice, so emitted paths are not always pairwise distinct. -/
theorem flatten_paths_collision :
    ¬ (((flatten "S"
          (Tree.map [("a", Tree.map [("b", Tree.leaf (Scalar.num 1))]),
            ("a.b", Tree.leaf (Scalar.num 2))])).map Prod.fst).Nodup) := by decide

/-- Claim C5, amended: `flatten` produces exactly one (path, rawValue)
pair per scalar leaf, never emits non-leaf nodes, gives zero rows for
empty sequences and mappings, and — provided every mapping node has
pairwise-distinct field names none of which contains the `.` delimiter
— the emitted paths are pairwise distinct within one flattening.
(Determinism of the traversal holds by construction: the model is a
pure function of the tree.) -/
theorem flatten_spec (sm : String) (t : Tree) (h : wf t = true) :
    (flatten sm t).length = leafCount t
    ∧ ((flatten sm t).map Prod.fst).Nodup
    ∧ flatten sm (Tree.seq []) = []
    ∧ flatten sm (Tree.map []) = [] := by
  refine ⟨?_, flatten_paths_nodup sm t h, rfl, rfl⟩
  simp [flatten, leaves_length]

/-- Witness for `flatten_spec` at the spec §8 example tree. -/
theorem flatten_spec_witness :
    wf exampleTree = true
    ∧ ((flatten "OperationalData" exampleTree).length = leafCount exampleTree
        ∧ ((flatten "OperationalData" exampleTree).map Prod.fst).Nodup
        ∧ flatten "OperationalData" (Tree.seq []) = []
        ∧ flatten "OperationalData" (Tree.map []) = []) :=
  ⟨by decide, flatten_spec "OperationalData" exampleTree (by decide)⟩

/-- Claim C6: an accepted time-range query returns points ordered by
capture timestamp ascending, never more than the effective limit; the
effective limit never exceeds the hard maximum 2000, and defaults to
200 when the caller sends none. -/
theorem range_query_sorted_capped (s : Store) (q : RangeQuery)
    (pts : List TimeseriesPoint) (h : queryTimeseries s q = Except.ok pts) :
    List.Sorted tsLe pts
    ∧ (pts.map TimeseriesPoint.created_at).Sorted (· ≤ ·)
    ∧ pts.length ≤ (effLimit q).toNat
    ∧ (effLimit q).toNat ≤ 2000
    ∧ (q.limit = none → pts.length ≤ 200) := by
  unfold queryTimeseries at h
  by_cases hv : queryInvalid q = true
  · simp [hv] at h
  · rw [if_neg hv] at h
    have hpts : pts = ((s.timeseries.filter (fun r =>
        r.submodel_name == q.submodel && r.element_path == q.path &&
        inBounds q r.created_at)).insertionSort tsLe).take (effLimit q).toNat := by
      injection h with h'
      exact h'.symm
    have hsorted : List.Sorted tsLe pts := by
      rw [hpts]
      exact List.Pairwise.sublist (List.take_sublist _ _)
        (List.sorted_insertionSort tsLe _)
    have hlen : pts.length ≤ (effLimit q).toNat := by
      rw [hpts]
      exact List.length_take_le _ _
    have heff : (effLimit q).toNat ≤ 2000 := by
      simp only [queryInvalid, Bool.or_eq_true, decide_eq_true_eq, not_or,
        HARD_MAX_LIMIT] at hv
      omega
    refine ⟨hsorted, ?_, hlen, heff, ?_⟩
    · exact List.Pairwise.map _ (fun a b hab => hab) hsorted
    · intro hnone
      have : effLimit q = 200 := by simp [effLimit, hnone, DEFAULT_LIMIT]
      omega

/-- Witness for `range_query_sorted_capped`: a default-limit query over
a store holding two out-of-order points for the same path. -/
theorem range_query_sorted_capped_witness :
    List.Sorted tsLe [⟨2, "S", "S.x", 5, 3⟩, ⟨1, "S", "S.x", 4, 9⟩]
    ∧ (([⟨2, "S", "S.x", 5, 3⟩, ⟨1, "S", "S.x", 4, 9⟩] :
          List TimeseriesPoint).map TimeseriesPoint.created_at).Sorted (· ≤ ·)
    ∧ ([⟨2, "S", "S.x", 5, 3⟩, ⟨1, "S", "S.x", 4, 9⟩] :
          List TimeseriesPoint).length ≤ (effLimit ⟨"S", "S.x", none, none, none⟩).toNat
    ∧ (effLimit ⟨"S", "S.x", none, none, none⟩).toNat ≤ 2000
    ∧ (RangeQuery.limit ⟨"S", "S.x", none, none, none⟩ = none →
        ([⟨2, "S", "S.x", 5, 3⟩, ⟨1, "S", "S.x", 4, 9⟩] :
          List TimeseriesPoint).length ≤ 200) :=
  range_query_sorted_capped
    { emptyStore with
      timeseries := [⟨1, "S", "S.x", 4, 9⟩, ⟨2, "S", "S.x", 5, 3⟩] }
    ⟨"S", "S.x", none, none, none⟩ _ rfl

/-- Claim C7: a range query with invalid bounds or limit is rejected
with QueryOutOfRange before touching the store: the result does not
depend on the store's contents in any way (and the query interface
returns no store, so nothing is written). -/
theorem invalid_query_rejected (s₁ s₂ : Store) (q : RangeQuery)
    (h : queryInvalid q = true) :
    queryTimeseries s₁ q = Except.error QueryError.queryOutOfRange
    ∧ queryTimeseries s₁ q = queryTimeseries s₂ q := by
  constructor <;> simp [queryTimeseries, h]

/-- Witness for `invalid_query_rejected`: `limit = 0` is rejected, on an
empty store and on a populated one alike. -/
theorem invalid_query_rejected_witness :
    queryInvalid ⟨"S", "S.x", none, none, some 0⟩ = true
    ∧ queryTimeseries emptyStore ⟨"S", "S.x", none, none, some 0⟩
        = Except.error QueryError.queryOutOfRange
    ∧ queryTimeseries emptyStore ⟨"S", "S.x", none, none, some 0⟩
        = queryTimeseries
            { emptyStore with timeseries := [⟨1, "S", "S.x", 4, 9⟩] }
            ⟨"S", "S.x", none, none, some 0⟩ :=
  ⟨by decide,
    invalid_query_rejected emptyStore
      { emptyStore with timeseries := [⟨1, "S", "S.x", 4, 9⟩] }
      ⟨"S", "S.x", none, none, some 0⟩ (by decide)⟩

/-- Claim C8: ingesting the same tree twice with two different
timestamps appends a second, independent batch: every row of the first
call is preserved unchanged (the first call's tables are prefixes of
the second call's), and the two calls' new row sets are disjoint in all
three tables — no upsert, merge or deduplication. -/
theorem reingest_independent_rows (s : Store) (sm : String) (t : Tree) (t₀ t₁ : Nat)
    (hav : s.available = true) (hne : t₀ ≠ t₁) :
    (ingest s sm t t₀).2.snapshots_json
        <+: (ingest (ingest s sm t t₀).2 sm t t₁).2.snapshots_json
    ∧ (ingest s sm t t₀).2.submodel_snapshots
        <+: (ingest (ingest s sm t t₀).2 sm t t₁).2.submodel_snapshots
    ∧ (ingest s sm t t₀).2.timeseries
        <+: (ingest (ingest s sm t t₀).2 sm t t₁).2.timeseries
    ∧ List.Disjoint
        ((ingest s sm t t₀).2.snapshots_json.drop s.snapshots_json.length)
        ((ingest (ingest s sm t t₀).2 sm t t₁).2.snapshots_json.drop
          (ingest s sm t t₀).2.snapshots_json.length)
    ∧ List.Disjoint
        ((ingest s sm t t₀).2.submodel_snapshots.drop s.submodel_snapshots.length)
        ((ingest (ingest s sm t t₀).2 sm t t₁).2.submodel_snapshots.drop
          (ingest s sm t t₀).2.submodel_snapshots.length)
    ∧ List.Disjoint
        ((ingest s sm t t₀).2.timeseries.drop s.timeseries.length)
        ((ingest (ingest s sm t t₀).2 sm t t₁).2.timeseries.drop
          (ingest s sm t t₀).2.timeseries.length) := by
  simp only [ingest, hav, if_true]
  refine ⟨List.prefix_append _ _, List.prefix_append _ _, List.prefix_append _ _, ?_, ?_, ?_⟩
  · rw [List.drop_left, List.drop_left]
    intro a ha₀ ha₁
    have h₀ : a.created_at = t₀ := by
      rcases List.mem_singleton.mp ha₀ with rfl
      rfl
    have h₁ : a.created_at = t₁ := by
      rcases List.mem_singleton.mp ha₁ with rfl
      rfl
    exact hne (h₀ ▸ h₁)
  · rw [List.drop_left, List.drop_left]
    intro a ha₀ ha₁
    exact hne ((mkNormRows_created sm t₀ _ _ a ha₀) ▸ (mkNormRows_created sm t₁ _ _ a ha₁))
  · rw [List.drop_left, List.drop_left]
    intro a ha₀ ha₁
    exact hne ((mkTsRows_created sm t₀ _ _ a ha₀) ▸ (mkTsRows_created sm t₁ _ _ a ha₁))

/-- Witness for `reingest_independent_rows`: the example poll ingested
at timestamps 1 and 2. -/
theorem reingest_independent_rows_witness :
    (ingest emptyStore "Op" exampleTree 1).2.snapshots_json
        <+: (ingest (ingest emptyStore "Op" exampleTree 1).2 "Op" exampleTree 2).2.snapshots_json
    ∧ (ingest emptyStore "Op" exampleTree 1).2.submodel_snapshots
        <+: (ingest (ingest emptyStore "Op" exampleTree 1).2 "Op"
          exampleTree 2).2.submodel_snapshots
    ∧ (ingest emptyStore "Op" exampleTree 1).2.timeseries
        <+: (ingest (ingest emptyStore "Op" exampleTree 1).2 "Op" exampleTree 2).2.timeseries
    ∧ List.Disjoint
        ((ingest emptyStore "Op" exampleTree 1).2.snapshots_json.drop
          emptyStore.snapshots_json.length)
        ((ingest (ingest emptyStore "Op" exampleTree 1).2 "Op"
          exampleTree 2).2.snapshots_json.drop
          (ingest emptyStore "Op" exampleTree 1).2.snapshots_json.length)
    ∧ List.Disjoint
        ((ingest emptyStore "Op" exampleTree 1).2.submodel_snapshots.drop
          emptyStore.submodel_snapshots.length)
        ((ingest (ingest emptyStore "Op" exampleTree 1).2 "Op"
          exampleTree 2).2.submodel_snapshots.drop
          (ingest emptyStore "Op" exampleTree 1).2.submodel_snapshots.length)
    ∧ List.Disjoint
        ((ingest emptyStore "Op" exampleTree 1).2.timeseries.drop
          emptyStore.timeseries.length)
        ((ingest (ingest emptyStore "Op" exampleTree 1).2 "Op"
          exampleTree 2).2.timeseries.drop
          (ingest emptyStore "Op" exampleTree 1).2.timeseries.length) :=
  reingest_independent_rows emptyStore "Op" exampleTree 1 2 rfl (by decide)

/-- Claim C9: `drawLine` is total over its rows: with no rows it
renders only the `Sem dados` placeholder; with a single row both JS
guards `rows.length-1||1` and `(max-min)||1` evaluate to `1`, the sole
point is the finite `(pad, H - pad)` with `pad = 8`, and the `x||1`
guard never produces a zero denominator for any value. -/
theorem drawLine_total_no_div_zero (W H v : ℚ) :
    drawLine W H [] = RenderResult.placeholder "Sem dados"
    ∧ jsOr1 ((([v] : List ℚ).length : ℚ) - 1) = 1
    ∧ jsOr1 (rowsMax v [] - rowsMin v []) = 1
    ∧ drawLine W H [v] = RenderResult.line [(8, H - 8)]
    ∧ (∀ x : ℚ, jsOr1 x ≠ 0) := by
  refine ⟨rfl, by norm_num [jsOr1], by simp [jsOr1, rowsMax, rowsMin], ?_, ?_⟩
  · show RenderResult.line _ = RenderResult.line _
    simp [rowsMin, rowsMax, jsOr1, List.enum, List.enumFrom]
    ring
  · intro x
    unfold jsOr1
    split
    · exact one_ne_zero
    · assumption

/-- Claim C10, counterexample: `fmt` falls through to `String(v)` for
strings, so the string value `"--"` also returns `"--"` although it is
neither `null` nor `undefined` — the claimed "exactly when" fails. -/
theorem fmt_dashes_not_only_null :
    fmt (JSVal.str "--") = "--"
    ∧ JSVal.str "--" ≠ JSVal.null
    ∧ JSVal.str "--" ≠ JSVal.undefined := by decide

/-- Claim C10, amended: `fmt` is total; it returns `"--"` for `null`
and `undefined` (and, because other values go through `String(v)`, also
for the string `"--"` itself); an integer-valued number renders with no
fraction digits (no `.` in the output), any other number renders with
exactly two fraction digits after the final `.`; strings return
themselves and booleans their `true`/`false` spelling. -/
theorem fmt_spec :
    fmt JSVal.null = "--"
    ∧ fmt JSVal.undefined = "--"
    ∧ (∀ s, fmt (JSVal.str s) = s)
    ∧ (∀ b, fmt (JSVal.boolean b) = if b then "true" else "false")
    ∧ (∀ q : ℚ,
        if q.den = 1 then '.' ∉ (fmt (JSVal.num q)).data
        else ∃ pre d₁ d₂, (fmt (JSVal.num q)).data = pre ++ '.' :: [d₁, d₂]
          ∧ d₁ ≠ '.' ∧ d₂ ≠ '.') := by
  refine ⟨rfl, rfl, fun s => rfl, fun b => rfl, fun q => ?_⟩
  by_cases hq : q.den = 1
  · simp only [fmt, hq, if_true]
    show '.' ∉ intChars q.num
    unfold intChars
    split
    · intro hmem
      rcases List.mem_cons.mp hmem with h | h
      · exact absurd h.symm (by decide)
      · exact decimalChars_ne_dot _ h
    · exact decimalChars_ne_dot _
  · simp only [fmt, hq, if_false]
    refine ⟨(if q < 0 then ['-'] else []) ++
      decimalChars ((round (|q| * 100)).toNat / 100),
      digitChar ((round (|q| * 100)).toNat % 100 / 10),
      digitChar ((round (|q| * 100)).toNat % 10), ?_, ?_, ?_⟩
    · show ((if q < 0 then ['-'] else []) ++
        decimalChars ((round (|q| * 100)).toNat / 100) ++
        '.' :: [digitChar ((round (|q| * 100)).toNat % 100 / 10),
                digitChar ((round (|q| * 100)).toNat % 10)]) = _
      rw [List.append_assoc]
    · exact digitChar_ne_dot _
    · exact digitChar_ne_dot _

end AasScara
